import Mathlib

/-!
Shallow embedding of the flam edge-detector native core
(`opencv_processor.h` / `opencv_processor.cpp` / `native-lib.cpp`),
for the build without the accelerated OpenCV backend (`HAVE_OPENCV`
undefined), in which every processing path is the pure fallback code.

Byte buffers are lists of naturals (each byte `< 256`); pointer
nullability is `Option`; wall-clock elapsed time is an external
parameter of each call.  Machine integers are modelled as `ℕ`/`ℤ`
with explicit wrapping or clamping where the source has it.
-/

namespace Flam

/-! ### Exact binary32 arithmetic for `ImageUtils::rgbaToGray`

`rgbaToGray` computes `0.299f*r + 0.587f*g + 0.114f*b` in IEEE-754
single precision and truncates to `uint8_t`.  We model the positive
float values appearing there as exact dyadic rationals `m * 2^e` and
each operation as the exact result rounded to 24 significant bits,
round-to-nearest, ties-to-even — which is IEEE binary32 behaviour for
positive values in the normal range (all values here lie in
`[2^-10, 2^9]`, so no overflow, underflow or subnormals occur). -/

/-- Round `n / d` (with `d > 0`) to the nearest integer, ties to even. -/
def rne (n d : ℕ) : ℕ :=
  let q := n / d
  let r := n % d
  if d < 2 * r then q + 1
  else if 2 * r < d then q
  else if q % 2 = 0 then q else q + 1

/-- Bit length of a natural number, with explicit structural fuel so the
kernel can evaluate it (64 bits covers every value in this development). -/
def bitLenAux : ℕ → ℕ → ℕ
  | 0, _ => 0
  | fuel + 1, n => if n = 0 then 0 else bitLenAux fuel (n / 2) + 1

def bitLen (n : ℕ) : ℕ := bitLenAux 64 n

/-- Bisection step for the integer square root.  Invariant:
`lo * lo ≤ n < hi * hi`; returns `lo` once `hi = lo + 1`.  Structural
fuel keeps it kernel-evaluable (`Nat.sqrt` itself is defined by
well-founded recursion and does not reduce); the fuel is only an upper
bound, the evaluation path is logarithmic. -/
def sqrtBisect : ℕ → ℕ → ℕ → ℕ → ℕ
  | 0, _, lo, _ => lo
  | fuel + 1, n, lo, hi =>
    if lo + 1 < hi then
      if (lo + hi) / 2 * ((lo + hi) / 2) ≤ n then sqrtBisect fuel n ((lo + hi) / 2) hi
      else sqrtBisect fuel n lo ((lo + hi) / 2)
    else lo

/-- Kernel-evaluable integer square root (`= Nat.sqrt`, proved below). -/
def kSqrt (n : ℕ) : ℕ := sqrtBisect (n + 1) n 0 (n + 1)

/-- A nonnegative dyadic value `m * 2^e`. -/
abbrev Dyadic := ℕ × ℤ

/-- Round a nonnegative dyadic to at most 24 significant bits
(binary32 round-to-nearest-even for positive, normal-range values). -/
def norm24 (m : ℕ) (e : ℤ) : Dyadic :=
  let b := bitLen m
  if b ≤ 24 then (m, e)
  else (rne m (2 ^ (b - 24)), e + (b - 24))

/-- binary32 multiplication of nonnegative dyadics: exact product, rounded. -/
def fmul (x y : Dyadic) : Dyadic := norm24 (x.1 * y.1) (x.2 + y.2)

/-- binary32 addition of nonnegative dyadics: exact sum, rounded. -/
def fadd (x y : Dyadic) : Dyadic :=
  if x.2 ≤ y.2 then norm24 (x.1 + y.1 * 2 ^ (y.2 - x.2).toNat) x.2
  else norm24 (x.1 * 2 ^ (x.2 - y.2).toNat + y.1) y.2

/-- Truncation toward zero of a nonnegative dyadic (the `uint8_t` cast). -/
def ftrunc (x : Dyadic) : ℕ :=
  if 0 ≤ x.2 then x.1 * 2 ^ x.2.toNat else x.1 / 2 ^ (-x.2).toNat

/-- The binary32 literal `0.299f` (exactly `10032775 * 2^-25`). -/
def w299 : Dyadic := (10032775, -25)

/-- The binary32 literal `0.587f` (exactly `9848226 * 2^-24`). -/
def w587 : Dyadic := (9848226, -24)

/-- The binary32 literal `0.114f` (exactly `15300821 * 2^-27`). -/
def w114 : Dyadic := (15300821, -27)

/-- `ImageUtils::rgbaToGray`:
`static_cast<uint8_t>(0.299f * r + 0.587f * g + 0.114f * b)`,
every operation in single precision, left-associated, then truncated.
An integer `0 ≤ r ≤ 255` converts exactly to binary32, hence `(r, 0)`. -/
def rgbaToGray (r g b : ℕ) : ℕ :=
  ftrunc (fadd (fadd (fmul w299 (r, 0)) (fmul w587 (g, 0))) (fmul w114 (b, 0)))

/-! ### Byte buffers and pixel kernels -/

/-- A byte buffer: flat list of bytes (row-major RGBA or single-channel). -/
abbrev Buf := List ℕ

/-- Read byte `i` of a buffer.  In the C++ source this is a raw pointer
dereference; reads are only meaningful (and only proved about) within
the valid region of the buffer, where `getD` returns the actual byte. -/
def readB (buf : Buf) (i : ℕ) : ℕ := buf.getD i 0

/-- The grayscale conversion loop inside
`OpenCVProcessor::applyCannyEdgeFallback`: for each pixel `i`,
`grayData[i] = rgbaToGray(input[4i], input[4i+1], input[4i+2])`. -/
def grayOfRgba (input : Buf) (width height : ℕ) : Buf :=
  (List.range (width * height)).map fun i =>
    rgbaToGray (readB input (4 * i)) (readB input (4 * i + 1)) (readB input (4 * i + 2))

/-- `OpenCVProcessor::convertToGrayscaleFallback`: writes, for each pixel,
the `rgbaToGray` value into R, G and B and `255` into alpha.  Byte `j`
belongs to pixel `j / 4`, channel `j % 4`. -/
def convertToGrayscaleFallback (input : Buf) (width height : ℕ) : Buf :=
  (List.range (width * height * 4)).map fun j =>
    if j % 4 = 3 then 255
    else
      rgbaToGray (readB input (4 * (j / 4))) (readB input (4 * (j / 4) + 1))
        (readB input (4 * (j / 4) + 2))

/-- The Sobel X response at `(x, y)`: convolution of the grayscale buffer
with `{{-1,0,1},{-2,0,2},{-1,0,1}}` (kernel column `kx+1`, row `ky+1`),
written out term by term.  Meaningful for interior pixels
`1 ≤ x`, `1 ≤ y` (where the `ℕ`-subtractions agree with the signed index
arithmetic of the source `(y+ky)*width + (x+kx)`). -/
def gxAt (gray : Buf) (width x y : ℕ) : ℤ :=
  -(readB gray ((y - 1) * width + (x - 1)) : ℤ)
    + (readB gray ((y - 1) * width + (x + 1)) : ℤ)
    - 2 * (readB gray (y * width + (x - 1)) : ℤ)
    + 2 * (readB gray (y * width + (x + 1)) : ℤ)
    - (readB gray ((y + 1) * width + (x - 1)) : ℤ)
    + (readB gray ((y + 1) * width + (x + 1)) : ℤ)

/-- The Sobel Y response at `(x, y)`: convolution with
`{{-1,-2,-1},{0,0,0},{1,2,1}}`. -/
def gyAt (gray : Buf) (width x y : ℕ) : ℤ :=
  -(readB gray ((y - 1) * width + (x - 1)) : ℤ)
    - 2 * (readB gray ((y - 1) * width + x) : ℤ)
    - (readB gray ((y - 1) * width + (x + 1)) : ℤ)
    + (readB gray ((y + 1) * width + (x - 1)) : ℤ)
    + 2 * (readB gray ((y + 1) * width + x) : ℤ)
    + (readB gray ((y + 1) * width + (x + 1)) : ℤ)

/-- Gradient magnitude at an interior pixel:
`min(255, (int)std::sqrt(gx*gx + gy*gy))`.  For `0 ≤ n ≤ 2·1020²` the
correctly rounded double `sqrt` truncates to the integer square root
(`sqrt` of a non-square integer in this range is at least `2⁻¹²` away
from every integer, far beyond the rounding error), so the `int` cast
is exactly the integer square root (`kSqrt = Nat.sqrt`). -/
def sobelMagAt (gray : Buf) (width x y : ℕ) : ℕ :=
  let gx := gxAt gray width x y
  let gy := gyAt gray width x y
  min 255 (kSqrt (gx * gx + gy * gy).toNat)

/-- The pre-threshold magnitude map of `ImageUtils::simpleEdgeDetection`:
the output is `memset` to zero, then every interior pixel
(`1 ≤ x < width-1`, `1 ≤ y < height-1`) receives its clipped gradient
magnitude. -/
def sobelPre (gray : Buf) (width height : ℕ) : Buf :=
  (List.range (width * height)).map fun i =>
    let x := i % width
    let y := i / width
    if 1 ≤ x ∧ x + 1 < width ∧ 1 ≤ y ∧ y + 1 < height then
      sobelMagAt gray width x y
    else 0

/-- `ImageUtils::simpleEdgeDetection`: the magnitude map followed by the
fixed binary threshold 50 (`output[i] = output[i] > 50 ? 255 : 0`). -/
def simpleEdgeDetection (gray : Buf) (width height : ℕ) : Buf :=
  (sobelPre gray width height).map fun v => if 50 < v then 255 else 0

/-- `OpenCVProcessor::applyCannyEdgeFallback`: grayscale via `rgbaToGray`,
Sobel edge extraction, then expansion of the single-channel map into
RGBA with the edge value in R, G, B and `255` in alpha. -/
def applyCannyEdgeFallback (input : Buf) (width height : ℕ) : Buf :=
  let edgeData := simpleEdgeDetection (grayOfRgba input width height) width height
  (List.range (width * height * 4)).map fun j =>
    if j % 4 = 3 then 255 else readB edgeData (j / 4)

/-- `OpenCVProcessor::copyRawFrame`:
`memcpy(outputData, inputData, width * height * 4)`. -/
def copyRawFrame (input : Buf) (width height : ℕ) : Buf :=
  (List.range (width * height * 4)).map fun j => readB input j

/-- `round(sqrt n)` for a natural number `n`, as the phrase of the specification
"round(sqrt(gx²+gy²))" reads: `⌊√n + 1/2⌋ = ⌊(⌊√(4n)⌋ + 1) / 2⌋`
(no ties occur: `√n + 1/2` is an integer only if `4n` is an odd
square, which is impossible). -/
def roundSqrt (n : ℕ) : ℕ := (kSqrt (4 * n) + 1) / 2

/-! ### The `OpenCVProcessor` state machine

Elapsed wall-clock time is external input: `processFrame` takes the
measured duration `elapsedMs` of the call as a parameter.  The
`steady_clock` is monotone, so durations are naturals.  The `double`
threshold fields are only stored and printed in this build, never used
arithmetically, so `ℚ` models them exactly. -/

/-- The mutable fields of `OpenCVProcessor`. -/
structure ProcessorState where
  mInitialized : Bool
  mOpenCVAvailable : Bool
  mCannyLowThreshold : ℚ
  mCannyHighThreshold : ℚ
  mCannyApertureSize : ℕ
  mTotalFramesProcessed : ℕ
  mTotalProcessingTimeMs : ℕ
  mLastProcessingTimeMs : ℕ
  deriving Repr, DecidableEq

/-- The constructor `OpenCVProcessor::OpenCVProcessor()`. -/
def mkProcessor : ProcessorState :=
  { mInitialized := false
    mOpenCVAvailable := false
    mCannyLowThreshold := 50
    mCannyHighThreshold := 150
    mCannyApertureSize := 3
    mTotalFramesProcessed := 0
    mTotalProcessingTimeMs := 0
    mLastProcessingTimeMs := 0 }

/-- `OpenCVProcessor::initialize` in the build without `HAVE_OPENCV`:
if already initialized, return `true` unchanged; otherwise set
`mOpenCVAvailable := false` and `mInitialized := true` and return
`true`. -/
def initializeProcessor (s : ProcessorState) : Bool × ProcessorState :=
  if s.mInitialized then (true, s)
  else (true, { s with mOpenCVAvailable := false, mInitialized := true })

/-- `OpenCVProcessor::isOpenCVAvailable`. -/
def isOpenCVAvailable (s : ProcessorState) : Bool := s.mOpenCVAvailable

/-- `OpenCVProcessor::updateStatistics`. -/
def updateStatistics (s : ProcessorState) (processingTimeMs : ℕ) : ProcessorState :=
  { s with
    mTotalFramesProcessed := s.mTotalFramesProcessed + 1
    mTotalProcessingTimeMs := s.mTotalProcessingTimeMs + processingTimeMs
    mLastProcessingTimeMs := processingTimeMs }

/-- `OpenCVProcessor::setCannyThresholds`. -/
def setCannyThresholds (s : ProcessorState) (lowThreshold highThreshold : ℚ) : ProcessorState :=
  { s with
    mCannyLowThreshold := lowThreshold
    mCannyHighThreshold := highThreshold }

/-- `OpenCVProcessor::release`. -/
def releaseProcessor (s : ProcessorState) : ProcessorState :=
  if s.mInitialized then { s with mInitialized := false } else s

/-- The data rendered by `OpenCVProcessor::getStatistics` (frame count,
average time `totalTime/frames` or `0.0`, last time, availability flag);
the `snprintf` text formatting around these values is not modelled. -/
structure StatisticsReport where
  frames : ℕ
  avgTime : ℚ
  lastTime : ℕ
  openCVAvailable : Bool
  deriving Repr, DecidableEq

/-- `OpenCVProcessor::getStatistics`. -/
def getStatistics (s : ProcessorState) : StatisticsReport :=
  { frames := s.mTotalFramesProcessed
    avgTime :=
      if 0 < s.mTotalFramesProcessed then
        (s.mTotalProcessingTimeMs : ℚ) / (s.mTotalFramesProcessed : ℚ)
      else 0
    lastTime := s.mLastProcessingTimeMs
    openCVAvailable := s.mOpenCVAvailable }

/-- The `ProcessingMetrics` struct. -/
structure ProcessingMetrics where
  processingTimeMs : ℤ
  width : ℤ
  height : ℤ
  mode : ℤ
  success : Bool
  deriving Repr, DecidableEq

/-- Result of one `processFrame` call: the returned metrics, the
processor state after the call, and the (possibly rewritten) output
buffer. -/
structure FrameResult where
  metrics : ProcessingMetrics
  state : ProcessorState
  output : Option Buf
  deriving Repr, DecidableEq

/-- `OpenCVProcessor::processFrame` (build without `HAVE_OPENCV`).
Validation order as in the source: initialization, null pointers,
dimensions.  On success the first `width*height*4` output bytes are
rewritten by the selected kernel (mode 0 and every unrecognized mode:
`copyRawFrame`; mode 1: `applyCannyEdgeFallback`; mode 2:
`convertToGrayscaleFallback`), bytes beyond that region are untouched,
and the statistics are updated with the elapsed time. -/
def processFrame (s : ProcessorState) (input : Option Buf) (width height mode : ℤ)
    (elapsedMs : ℕ) (output : Option Buf) : FrameResult :=
  let metrics0 : ProcessingMetrics :=
    { processingTimeMs := 0, width := width, height := height, mode := mode, success := false }
  if ¬ s.mInitialized then ⟨metrics0, s, output⟩
  else
    match input, output with
    | some inBuf, some outBuf =>
      if width ≤ 0 ∨ height ≤ 0 then ⟨metrics0, s, output⟩
      else
        let w := width.toNat
        let h := height.toNat
        let newBytes :=
          if mode = 1 then applyCannyEdgeFallback inBuf w h
          else if mode = 2 then convertToGrayscaleFallback inBuf w h
          else copyRawFrame inBuf w h
        ⟨{ processingTimeMs := (elapsedMs : ℤ), width := width, height := height,
           mode := mode, success := true },
         updateStatistics s elapsedMs,
         some (newBytes ++ outBuf.drop (w * h * 4))⟩
    | _, _ => ⟨metrics0, s, output⟩

/-! ### The external boundary (`native-lib.cpp`) -/

/-- `Java_com_flam_edgedetector_NativeLib_processFrame`: returns the
elapsed time, or the sentinel `-1` when the processor is absent, an
array is null, an array is shorter than `width*height*4`, or the
engine call reports failure.  Returns the sentinel, the processor
state after the call and the output array contents. -/
def nativeProcessFrame (proc : Option ProcessorState) (input : Option Buf)
    (width height mode : ℤ) (elapsedMs : ℕ) (output : Option Buf) :
    ℤ × Option ProcessorState × Option Buf :=
  match proc with
  | none => (-1, proc, output)
  | some s =>
    match input, output with
    | some inBuf, some outBuf =>
      let expectedLength : ℤ := width * height * 4
      if (inBuf.length : ℤ) < expectedLength then (-1, proc, output)
      else if (outBuf.length : ℤ) < expectedLength then (-1, proc, output)
      else
        let r := processFrame s input width height mode elapsedMs output
        if r.metrics.success then (r.metrics.processingTimeMs, some r.state, r.output)
        else (-1, some r.state, r.output)
    | _, _ => (-1, proc, output)

/-- Clamp an integer channel value to `[0, 255]`
(`v < 0 ? 0 : (v > 255 ? 255 : v)`). -/
def clamp255 (v : ℤ) : ℤ := if v < 0 then 0 else if v > 255 then 255 else v

/-- `Java_com_flam_edgedetector_NativeLib_yuv420ToRgba`.  Plane reads are
`jbyte & 0xFF`, i.e. the byte value reduced mod 256; `>> 8` on a
(possibly negative) int is an arithmetic shift, i.e. floor division by
256 (`Int.fdiv`).  Output byte `j` is channel `j % 4` of pixel `j / 4`,
at `x = pixel % width`, `y = pixel / width`, matching the expression
`outIndex = (y * width + x) * 4`. -/
def yuv420ToRgba (yPlane uPlane vPlane : Buf)
    (width height yRowStride uvRowStride uvPixelStride : ℕ) : Buf :=
  (List.range (width * height * 4)).map fun j =>
    let p := j / 4
    let x := p % width
    let y := p / width
    let yIndex := y * yRowStride + x
    let uvIndex := (y / 2) * uvRowStride + (x / 2) * uvPixelStride
    let yv := readB yPlane yIndex % 256
    let uv := readB uPlane uvIndex % 256
    let vv := readB vPlane uvIndex % 256
    let c : ℤ := (yv : ℤ) - 16
    let d : ℤ := (uv : ℤ) - 128
    let e : ℤ := (vv : ℤ) - 128
    if j % 4 = 0 then (clamp255 ((298 * c + 409 * e + 128).fdiv 256)).toNat
    else if j % 4 = 1 then (clamp255 ((298 * c - 100 * d - 208 * e + 128).fdiv 256)).toNat
    else if j % 4 = 2 then (clamp255 ((298 * c + 516 * d + 128).fdiv 256)).toNat
    else 255

/-- One engine call as seen by the statistics claims: an input frame,
its dimensions and mode, and the externally measured elapsed time. -/
structure FrameCall where
  input : Buf
  width : ℤ
  height : ℤ
  mode : ℤ
  elapsed : ℕ
  deriving Repr, DecidableEq

/-- Fold a sequence of `processFrame` calls over the processor state
(each with a fresh caller-owned output buffer). -/
def runCalls (s : ProcessorState) (calls : List FrameCall) : ProcessorState :=
  calls.foldl
    (fun st call =>
      (processFrame st (some call.input) call.width call.height call.mode call.elapsed
          (some [])).state)
    s

/-! ### Helper lemmas -/

theorem sqrtBisect_eq (fuel : ℕ) : ∀ n lo hi : ℕ, lo * lo ≤ n → n < hi * hi →
    lo < hi → hi - lo ≤ 2 ^ fuel → sqrtBisect fuel n lo hi = Nat.sqrt n := by
  induction fuel with
  | zero =>
    intro n lo hi h1 h2 h3 h4
    have h40 : hi - lo ≤ 1 := by simpa using h4
    have hhi : hi = lo + 1 := by omega
    subst hhi
    exact Nat.eq_sqrt.mpr ⟨h1, h2⟩
  | succ fuel ih =>
    intro n lo hi h1 h2 h3 h4
    have hpow : (2 : ℕ) ^ (fuel + 1) = 2 * 2 ^ fuel := by rw [pow_succ]; ring
    rw [sqrtBisect]
    by_cases hlh : lo + 1 < hi
    · rw [if_pos hlh]
      by_cases hm : (lo + hi) / 2 * ((lo + hi) / 2) ≤ n
      · rw [if_pos hm]
        exact ih n ((lo + hi) / 2) hi hm h2 (by omega) (by omega)
      · rw [if_neg hm]
        exact ih n lo ((lo + hi) / 2) h1 (by omega) (by omega) (by omega)
    · rw [if_neg hlh]
      have hhi : hi = lo + 1 := by omega
      subst hhi
      exact Nat.eq_sqrt.mpr ⟨h1, h2⟩

theorem kSqrt_eq_sqrt (n : ℕ) : kSqrt n = Nat.sqrt n := by
  refine sqrtBisect_eq (n + 1) n 0 (n + 1) (by simp) ?_ (by omega) ?_
  · calc n < n + 1 := Nat.lt_succ_self n
      _ ≤ (n + 1) * (n + 1) := Nat.le_mul_of_pos_left _ (by omega)
  · have := Nat.lt_two_pow n
    calc n + 1 - 0 = n + 1 := by omega
      _ ≤ 2 ^ n + 1 := by omega
      _ ≤ 2 ^ (n + 1) := by
          have h2 : (2 : ℕ) ^ (n + 1) = 2 * 2 ^ n := by rw [pow_succ]; ring
          have h3 : 1 ≤ 2 ^ n := Nat.one_le_two_pow
          omega

theorem getD_range_map (f : ℕ → ℕ) {n i : ℕ} (h : i < n) :
    ((List.range n).map f).getD i 0 = f i := by
  rw [List.getD_eq_getElem?_getD, List.getElem?_map, List.getElem?_range h]
  rfl

theorem getD_append_left {l l' : Buf} {i : ℕ} (h : i < l.length) :
    (l ++ l').getD i 0 = l.getD i 0 := by
  rw [List.getD_eq_getElem?_getD, List.getD_eq_getElem?_getD,
    List.getElem?_append, if_pos h]

theorem pix_decomp {width : ℕ} (x y : ℕ) (hx : x < width) :
    (y * width + x) % width = x ∧ (y * width + x) / width = y := by
  constructor
  · rw [Nat.mul_comm y width, Nat.mul_add_mod]
    exact Nat.mod_eq_of_lt hx
  · rw [Nat.mul_comm y width, Nat.mul_add_div (by omega), Nat.div_eq_of_lt hx]
    omega

theorem pix_lt {width height : ℕ} (x y : ℕ) (hx : x < width) (hy : y < height) :
    y * width + x < width * height := by
  calc y * width + x < y * width + width := by omega
    _ = (y + 1) * width := by ring
    _ ≤ height * width := Nat.mul_le_mul_right _ (by omega)
    _ = width * height := Nat.mul_comm _ _

/-- Evaluation of `processFrame` on a fully valid call. -/
theorem processFrame_valid_eq (s : ProcessorState) (inBuf outBuf : Buf)
    (width height mode : ℤ) (t : ℕ)
    (hinit : s.mInitialized = true) (hw : 0 < width) (hh : 0 < height) :
    processFrame s (some inBuf) width height mode t (some outBuf) =
      ⟨{ processingTimeMs := (t : ℤ), width := width, height := height, mode := mode,
         success := true },
       updateStatistics s t,
       some ((if mode = 1 then applyCannyEdgeFallback inBuf width.toNat height.toNat
              else if mode = 2 then convertToGrayscaleFallback inBuf width.toNat height.toNat
              else copyRawFrame inBuf width.toNat height.toNat) ++
             outBuf.drop (width.toNat * height.toNat * 4))⟩ := by
  have hwh : ¬ (width ≤ 0 ∨ height ≤ 0) := by omega
  simp only [processFrame, hinit, not_true_eq_false, if_false, hwh]

theorem getLast_getD_cons (a : ℕ) (l : List ℕ) (d : ℕ) :
    ((a :: l).getLast?).getD d = (l.getLast?).getD a := by
  cases l with
  | nil => rfl
  | cons b m =>
    rw [List.getLast?_cons_cons]
    cases h : (b :: m).getLast? with
    | none => exact absurd h (by simp)
    | some z => rfl

/-! ### Claim theorems -/

/-- Claim C1: for an initialized engine, non-null buffers and positive
dimensions, `processFrame` with mode 0 (Passthrough), or with any mode
other than 1 and 2, reports success and writes a byte-for-byte copy of
the first `width*height*4` input bytes to the output buffer. -/
theorem passthrough_copies_input (s : ProcessorState) (inBuf outBuf : Buf)
    (width height mode : ℤ) (t : ℕ)
    (hinit : s.mInitialized = true) (hw : 0 < width) (hh : 0 < height)
    (hmode : mode ≠ 1 ∧ mode ≠ 2) :
    (processFrame s (some inBuf) width height mode t (some outBuf)).metrics.success = true ∧
    ∀ i, i < width.toNat * height.toNat * 4 →
      ((processFrame s (some inBuf) width height mode t (some outBuf)).output.getD []).getD i 0 =
        inBuf.getD i 0 := by
  rw [processFrame_valid_eq s inBuf outBuf width height mode t hinit hw hh]
  refine ⟨rfl, fun i hi => ?_⟩
  rw [if_neg hmode.1, if_neg hmode.2]
  show ((copyRawFrame inBuf width.toNat height.toNat ++ _ : Buf)).getD i 0 = _
  rw [getD_append_left (by simpa [copyRawFrame] using hi), copyRawFrame,
    getD_range_map _ hi]
  rfl

/-- Witness for C1: a 1×1 frame, unrecognized mode 7, copied verbatim. -/
theorem passthrough_copies_input_witness :
    ((mkProcessor.mInitialized = false) ∧ (0:ℤ) < 1 ∧ ((7:ℤ) ≠ 1 ∧ (7:ℤ) ≠ 2)) ∧
    ((processFrame (initializeProcessor mkProcessor).2 (some [10, 20, 30, 40]) 1 1 7 5
        (some [0, 0, 0, 0])).metrics.success = true ∧
      ∀ i, i < (1:ℤ).toNat * (1:ℤ).toNat * 4 →
        (((processFrame (initializeProcessor mkProcessor).2 (some [10, 20, 30, 40]) 1 1 7 5
            (some [0, 0, 0, 0])).output).getD []).getD i 0 = [10, 20, 30, 40].getD i 0) :=
  ⟨by decide,
   passthrough_copies_input (initializeProcessor mkProcessor).2 [10, 20, 30, 40] [0, 0, 0, 0]
     1 1 7 5 (by decide) (by decide) (by decide) ⟨by decide, by decide⟩⟩

/-- Claim C2, counterexample: the specification formula
`floor(0.299·R + 0.587·G + 0.114·B)` gives 53 at the pixel
`(8, 80, 32)`, but the grayscale fallback (single-precision
arithmetic) writes 52. -/
theorem grayscale_not_exact_floor :
    (convertToGrayscaleFallback [8, 80, 32, 255] 1 1).getD 0 0 = 52 ∧
    (299 * 8 + 587 * 80 + 114 * 32) / 1000 = 53 ∧
    (convertToGrayscaleFallback [8, 80, 32, 255] 1 1).getD 0 0 ≠
      (299 * 8 + 587 * 80 + 114 * 32) / 1000 := by
  decide

/-- Claim C2, amended: for every pixel, the grayscale fallback writes
`R = G = B = rgbaToGray(R₀, G₀, B₀)` — the single-precision evaluation
of `0.299·R₀ + 0.587·G₀ + 0.114·B₀`, truncated — and alpha `255`. -/
theorem grayscale_fallback_pixels (input : Buf) (width height i : ℕ)
    (hi : i < width * height) :
    (convertToGrayscaleFallback input width height).getD (4 * i) 0 =
      rgbaToGray (readB input (4 * i)) (readB input (4 * i + 1)) (readB input (4 * i + 2)) ∧
    (convertToGrayscaleFallback input width height).getD (4 * i + 1) 0 =
      rgbaToGray (readB input (4 * i)) (readB input (4 * i + 1)) (readB input (4 * i + 2)) ∧
    (convertToGrayscaleFallback input width height).getD (4 * i + 2) 0 =
      rgbaToGray (readB input (4 * i)) (readB input (4 * i + 1)) (readB input (4 * i + 2)) ∧
    (convertToGrayscaleFallback input width height).getD (4 * i + 3) 0 = 255 := by
  refine ⟨?_, ?_, ?_, ?_⟩ <;>
  · rw [convertToGrayscaleFallback, getD_range_map _ (by omega)]
    have h4 : (4 * i) % 4 = 0 ∧ (4 * i + 1) % 4 = 1 ∧ (4 * i + 2) % 4 = 2 ∧
        (4 * i + 3) % 4 = 3 ∧ (4 * i) / 4 = i ∧ (4 * i + 1) / 4 = i ∧
        (4 * i + 2) / 4 = i ∧ (4 * i + 3) / 4 = i := by omega
    simp [h4.1, h4.2.1, h4.2.2.1, h4.2.2.2.1, h4.2.2.2.2.1, h4.2.2.2.2.2.1,
      h4.2.2.2.2.2.2.1, h4.2.2.2.2.2.2.2]

/-- Witness for amended C2 on the 1×1 frame `(8, 80, 32, 255)`. -/
theorem grayscale_fallback_pixels_witness :
    0 < 1 * 1 ∧
    ((convertToGrayscaleFallback [8, 80, 32, 255] 1 1).getD (4 * 0) 0 =
      rgbaToGray (readB [8, 80, 32, 255] (4 * 0)) (readB [8, 80, 32, 255] (4 * 0 + 1))
        (readB [8, 80, 32, 255] (4 * 0 + 2)) ∧
    (convertToGrayscaleFallback [8, 80, 32, 255] 1 1).getD (4 * 0 + 1) 0 =
      rgbaToGray (readB [8, 80, 32, 255] (4 * 0)) (readB [8, 80, 32, 255] (4 * 0 + 1))
        (readB [8, 80, 32, 255] (4 * 0 + 2)) ∧
    (convertToGrayscaleFallback [8, 80, 32, 255] 1 1).getD (4 * 0 + 2) 0 =
      rgbaToGray (readB [8, 80, 32, 255] (4 * 0)) (readB [8, 80, 32, 255] (4 * 0 + 1))
        (readB [8, 80, 32, 255] (4 * 0 + 2)) ∧
    (convertToGrayscaleFallback [8, 80, 32, 255] 1 1).getD (4 * 0 + 3) 0 = 255) :=
  ⟨by decide, grayscale_fallback_pixels [8, 80, 32, 255] 1 1 0 (by decide)⟩

/-- Claim C3, counterexample: on the 3×3 grayscale input that is zero
except for value 2 at the bottom-right corner, the interior pixel
`(1,1)` has `gx = gy = 2`, so the claimed value
`round(sqrt(8)) = 3` differs from the written value
`trunc(sqrt(8)) = 2`. -/
theorem sobel_magnitude_not_rounded :
    (sobelPre [0, 0, 0, 0, 0, 0, 0, 0, 2] 3 3).getD (1 * 3 + 1) 0 = 2 ∧
    min 255 (roundSqrt ((gxAt [0, 0, 0, 0, 0, 0, 0, 0, 2] 3 1 1 *
        gxAt [0, 0, 0, 0, 0, 0, 0, 0, 2] 3 1 1 +
        gyAt [0, 0, 0, 0, 0, 0, 0, 0, 2] 3 1 1 *
        gyAt [0, 0, 0, 0, 0, 0, 0, 0, 2] 3 1 1).toNat)) = 3 ∧
    (sobelPre [0, 0, 0, 0, 0, 0, 0, 0, 2] 3 3).getD (1 * 3 + 1) 0 ≠
      min 255 (roundSqrt ((gxAt [0, 0, 0, 0, 0, 0, 0, 0, 2] 3 1 1 *
        gxAt [0, 0, 0, 0, 0, 0, 0, 0, 2] 3 1 1 +
        gyAt [0, 0, 0, 0, 0, 0, 0, 0, 2] 3 1 1 *
        gyAt [0, 0, 0, 0, 0, 0, 0, 0, 2] 3 1 1).toNat)) := by
  decide

/-- Claim C3, amended: for every interior pixel, the pre-threshold
value written by the fallback Sobel kernel is the *truncation* (not
rounding) of `sqrt(gx² + gy²)`, clipped to 255. -/
theorem sobel_magnitude_is_floor (gray : Buf) (width height x y : ℕ)
    (hx1 : 1 ≤ x) (hx2 : x + 1 < width) (hy1 : 1 ≤ y) (hy2 : y + 1 < height) :
    (sobelPre gray width height).getD (y * width + x) 0 =
      min 255 (Nat.sqrt ((gxAt gray width x y * gxAt gray width x y +
        gyAt gray width x y * gyAt gray width x y).toNat)) := by
  have hxw : x < width := by omega
  have hidx : y * width + x < width * height := pix_lt x y hxw (by omega)
  rw [sobelPre, getD_range_map _ hidx]
  simp only [(pix_decomp x y hxw).1, (pix_decomp x y hxw).2]
  rw [if_pos ⟨hx1, hx2, hy1, hy2⟩]
  simp only [sobelMagAt, kSqrt_eq_sqrt]

/-- Witness for amended C3 on the counterexample frame: the written
value is the truncated magnitude. -/
theorem sobel_magnitude_is_floor_witness :
    (1 ≤ 1 ∧ 1 + 1 < 3) ∧
    (sobelPre [0, 0, 0, 0, 0, 0, 0, 0, 2] 3 3).getD (1 * 3 + 1) 0 =
      min 255 (Nat.sqrt ((gxAt [0, 0, 0, 0, 0, 0, 0, 0, 2] 3 1 1 *
        gxAt [0, 0, 0, 0, 0, 0, 0, 0, 2] 3 1 1 +
        gyAt [0, 0, 0, 0, 0, 0, 0, 0, 2] 3 1 1 *
        gyAt [0, 0, 0, 0, 0, 0, 0, 0, 2] 3 1 1).toNat)) :=
  ⟨by decide,
   sobel_magnitude_is_floor [0, 0, 0, 0, 0, 0, 0, 0, 2] 3 3 1 1 (by decide) (by decide)
     (by decide) (by decide)⟩

/-- Claim C5: the fallback EdgeDetect output is binary — each R, G, B
byte is exactly `255` when the pre-threshold gradient value of its
pixel exceeds 50 and exactly `0` otherwise, and every alpha byte is
`255`. -/
theorem edge_fallback_binary (input : Buf) (width height j : ℕ)
    (hj : j < width * height * 4) :
    ((applyCannyEdgeFallback input width height).getD j 0 = 0 ∨
      (applyCannyEdgeFallback input width height).getD j 0 = 255) ∧
    (j % 4 = 3 → (applyCannyEdgeFallback input width height).getD j 0 = 255) ∧
    (j % 4 ≠ 3 → (applyCannyEdgeFallback input width height).getD j 0 =
      if 50 < (sobelPre (grayOfRgba input width height) width height).getD (j / 4) 0
      then 255 else 0) := by
  have hj4 : j / 4 < width * height := by omega
  have hval : (applyCannyEdgeFallback input width height).getD j 0 =
      if j % 4 = 3 then 255
      else if 50 < (sobelPre (grayOfRgba input width height) width height).getD (j / 4) 0
        then 255 else 0 := by
    rw [applyCannyEdgeFallback, getD_range_map _ hj]
    by_cases h3 : j % 4 = 3
    · simp [h3]
    · rw [if_neg h3, if_neg h3]
      show readB (simpleEdgeDetection _ _ _) (j / 4) = _
      rw [readB, simpleEdgeDetection, sobelPre, List.map_map, getD_range_map _ hj4,
        getD_range_map _ hj4]
      rfl
  rw [hval]
  by_cases h3 : j % 4 = 3
  · simp [h3]
  · rw [if_neg h3]
    refine ⟨?_, fun h => absurd h h3, fun _ => rfl⟩
    by_cases h50 : 50 < (sobelPre (grayOfRgba input width height) width height).getD (j / 4) 0
    · rw [if_pos h50]; right; rfl
    · rw [if_neg h50]; left; rfl

/-- Witness for C5 on a 3×3 frame with a strong white corner pixel. -/
theorem edge_fallback_binary_witness :
    (1 < 3 * 3 * 4) ∧
    (((applyCannyEdgeFallback
        [0,0,0,255, 0,0,0,255, 0,0,0,255,
         0,0,0,255, 0,0,0,255, 255,255,255,255,
         0,0,0,255, 255,255,255,255, 255,255,255,255] 3 3).getD 1 0 = 0 ∨
      (applyCannyEdgeFallback
        [0,0,0,255, 0,0,0,255, 0,0,0,255,
         0,0,0,255, 0,0,0,255, 255,255,255,255,
         0,0,0,255, 255,255,255,255, 255,255,255,255] 3 3).getD 1 0 = 255) ∧
    (1 % 4 = 3 → (applyCannyEdgeFallback
        [0,0,0,255, 0,0,0,255, 0,0,0,255,
         0,0,0,255, 0,0,0,255, 255,255,255,255,
         0,0,0,255, 255,255,255,255, 255,255,255,255] 3 3).getD 1 0 = 255) ∧
    (1 % 4 ≠ 3 → (applyCannyEdgeFallback
        [0,0,0,255, 0,0,0,255, 0,0,0,255,
         0,0,0,255, 0,0,0,255, 255,255,255,255,
         0,0,0,255, 255,255,255,255, 255,255,255,255] 3 3).getD 1 0 =
      if 50 < (sobelPre (grayOfRgba
        [0,0,0,255, 0,0,0,255, 0,0,0,255,
         0,0,0,255, 0,0,0,255, 255,255,255,255,
         0,0,0,255, 255,255,255,255, 255,255,255,255] 3 3) 3 3).getD (1 / 4) 0
      then 255 else 0)) :=
  ⟨by decide,
   edge_fallback_binary
     [0,0,0,255, 0,0,0,255, 0,0,0,255,
      0,0,0,255, 0,0,0,255, 255,255,255,255,
      0,0,0,255, 255,255,255,255, 255,255,255,255] 3 3 1 (by decide)⟩

/-- Claim C10: when `width ≤ 2` or `height ≤ 2` the Sobel pass has no
interior pixels, so the fallback EdgeDetect output is all black: every
R, G, B byte is `0` and every alpha byte is `255`. -/
theorem small_frame_edge_black (input : Buf) (width height j : ℕ)
    (hsmall : width ≤ 2 ∨ height ≤ 2) (hj : j < width * height * 4) :
    (applyCannyEdgeFallback input width height).getD j 0 =
      if j % 4 = 3 then 255 else 0 := by
  have hj4 : j / 4 < width * height := by omega
  rw [applyCannyEdgeFallback, getD_range_map _ hj]
  by_cases h3 : j % 4 = 3
  · rw [if_pos h3, if_pos h3]
  · rw [if_neg h3, if_neg h3]
    show readB (simpleEdgeDetection _ _ _) (j / 4) = 0
    rw [readB, simpleEdgeDetection, sobelPre, List.map_map, getD_range_map _ hj4]
    have hnotint : ¬ (1 ≤ j / 4 % width ∧ j / 4 % width + 1 < width ∧
        1 ≤ j / 4 / width ∧ j / 4 / width + 1 < height) := by
      rintro ⟨h1, h2, h3', h4⟩
      rcases hsmall with h | h <;> omega
    simp [hnotint]

/-- Witness for C10: a 2×2 all-white frame produces black edge output. -/
theorem small_frame_edge_black_witness :
    ((2 ≤ 2 ∨ 2 ≤ 2) ∧ 0 < 2 * 2 * 4) ∧
    (applyCannyEdgeFallback
      [255,255,255,255, 255,255,255,255, 255,255,255,255, 255,255,255,255] 2 2).getD 0 0 =
      if 0 % 4 = 3 then 255 else 0 :=
  ⟨⟨Or.inl (by decide), by decide⟩,
   small_frame_edge_black
     [255,255,255,255, 255,255,255,255, 255,255,255,255, 255,255,255,255] 2 2 0
     (Or.inl (by decide)) (by decide)⟩

/-- Claim C4: every contract violation — uninitialized engine, null
input or output buffer, non-positive width or height, or (at the
external boundary) an input or output array shorter than
`width*height*4` — makes the boundary call return the `-1` sentinel
with the output array unmodified; for the engine-level violations the
engine call itself reports `success = false` and leaves the output
buffer unmodified. -/
theorem contract_violation_fails (s : ProcessorState) (input output : Option Buf)
    (width height mode : ℤ) (t : ℕ)
    (hviol : (s.mInitialized = false ∨ input = none ∨ output = none ∨
        width ≤ 0 ∨ height ≤ 0) ∨
      (∃ b, input = some b ∧ (b.length : ℤ) < width * height * 4) ∨
      (∃ b, output = some b ∧ (b.length : ℤ) < width * height * 4)) :
    (nativeProcessFrame (some s) input width height mode t output).1 = -1 ∧
    (nativeProcessFrame (some s) input width height mode t output).2.2 = output ∧
    ((s.mInitialized = false ∨ input = none ∨ output = none ∨
        width ≤ 0 ∨ height ≤ 0) →
      (processFrame s input width height mode t output).metrics.success = false ∧
      (processFrame s input width height mode t output).output = output) := by
  have engine : (s.mInitialized = false ∨ input = none ∨ output = none ∨
      width ≤ 0 ∨ height ≤ 0) →
      (processFrame s input width height mode t output).metrics.success = false ∧
      (processFrame s input width height mode t output).output = output := by
    intro h
    cases input with
    | none => cases hs : s.mInitialized <;> simp [processFrame, hs]
    | some inBuf =>
      cases output with
      | none => cases hs : s.mInitialized <;> simp [processFrame, hs]
      | some outBuf =>
        rcases h with h | h | h | h | h
        · simp [processFrame, h]
        · exact absurd h (by simp)
        · exact absurd h (by simp)
        · cases hs : s.mInitialized
          · simp [processFrame, hs]
          · simp [processFrame, hs, if_pos (Or.inl h)]
        · cases hs : s.mInitialized
          · simp [processFrame, hs]
          · simp [processFrame, hs, if_pos (Or.inr h)]
  refine ⟨?_, ?_, engine⟩ <;>
  · cases input with
    | none => rfl
    | some inBuf =>
      cases output with
      | none => rfl
      | some outBuf =>
        by_cases h1 : (inBuf.length : ℤ) < width * height * 4
        · simp only [nativeProcessFrame, if_pos h1]
        · by_cases h2 : (outBuf.length : ℤ) < width * height * 4
          · simp only [nativeProcessFrame, if_neg h1, if_pos h2]
          · have hfail :
                (processFrame s (some inBuf) width height mode t (some outBuf)).metrics.success
                  = false ∧
                (processFrame s (some inBuf) width height mode t (some outBuf)).output =
                  some outBuf := by
              apply engine
              rcases hviol with h | ⟨b, hb, hlen⟩ | ⟨b, hb, hlen⟩
              · exact h
              · cases hb; exact absurd hlen h1
              · cases hb; exact absurd hlen h2
            simp only [nativeProcessFrame, if_neg h1, if_neg h2, hfail.1, hfail.2,
              Bool.false_eq_true, if_false]

/-- Witness for C4: an uninitialized engine with well-formed buffers. -/
theorem contract_violation_fails_witness :
    (mkProcessor.mInitialized = false) ∧
    ((nativeProcessFrame (some mkProcessor) (some [1, 2, 3, 4]) 1 1 0 0
        (some [9, 9, 9, 9])).1 = -1 ∧
    (nativeProcessFrame (some mkProcessor) (some [1, 2, 3, 4]) 1 1 0 0
        (some [9, 9, 9, 9])).2.2 = some [9, 9, 9, 9] ∧
    ((mkProcessor.mInitialized = false ∨ (some [1, 2, 3, 4] : Option Buf) = none ∨
        (some [9, 9, 9, 9] : Option Buf) = none ∨ (1 : ℤ) ≤ 0 ∨ (1 : ℤ) ≤ 0) →
      (processFrame mkProcessor (some [1, 2, 3, 4]) 1 1 0 0
          (some [9, 9, 9, 9])).metrics.success = false ∧
      (processFrame mkProcessor (some [1, 2, 3, 4]) 1 1 0 0
          (some [9, 9, 9, 9])).output = some [9, 9, 9, 9])) :=
  ⟨by decide,
   contract_violation_fails mkProcessor (some [1, 2, 3, 4]) (some [9, 9, 9, 9]) 1 1 0 0
     (Or.inl (Or.inl (by decide)))⟩

/-- Statistics accumulation across a list of valid calls, by induction. -/
theorem runCalls_stats (calls : List FrameCall) : ∀ s : ProcessorState,
    s.mInitialized = true → (∀ c ∈ calls, 0 < c.width ∧ 0 < c.height) →
    (runCalls s calls).mInitialized = true ∧
    (runCalls s calls).mTotalFramesProcessed = s.mTotalFramesProcessed + calls.length ∧
    (runCalls s calls).mTotalProcessingTimeMs =
      s.mTotalProcessingTimeMs + (calls.map FrameCall.elapsed).sum ∧
    (runCalls s calls).mLastProcessingTimeMs =
      ((calls.map FrameCall.elapsed).getLast?).getD s.mLastProcessingTimeMs := by
  induction calls with
  | nil =>
    intro s hinit _
    exact ⟨hinit, by simp [runCalls], by simp [runCalls], by simp [runCalls]⟩
  | cons c rest ih =>
    intro s hinit hvalid
    have hc := hvalid c (List.mem_cons_self c rest)
    have hstep :
        (processFrame s (some c.input) c.width c.height c.mode c.elapsed (some [])).state =
          updateStatistics s c.elapsed := by
      rw [processFrame_valid_eq s c.input [] c.width c.height c.mode c.elapsed hinit hc.1 hc.2]
    have hrw : runCalls s (c :: rest) = runCalls (updateStatistics s c.elapsed) rest := by
      simp only [runCalls, List.foldl_cons, hstep]
    have hinit' : (updateStatistics s c.elapsed).mInitialized = true := by
      simpa [updateStatistics] using hinit
    have ih' := ih (updateStatistics s c.elapsed) hinit'
      (fun d hd => hvalid d (List.mem_cons_of_mem c hd))
    rw [hrw]
    refine ⟨ih'.1, ?_, ?_, ?_⟩
    · rw [ih'.2.1]
      simp only [updateStatistics, List.length_cons]
      omega
    · rw [ih'.2.2.1]
      simp only [updateStatistics, List.map_cons, List.sum_cons]
      omega
    · rw [ih'.2.2.2]
      simp only [updateStatistics, List.map_cons]
      rw [getLast_getD_cons]

/-- Claim C6: starting from a freshly initialized engine, after `N`
valid `processFrame` calls with elapsed times `t₁..tₙ` (any modes),
the statistics report frame count `N`, average `(Σtᵢ)/N` (`0` when
`N = 0`) and last-frame time `tₙ`; each successful call bumps the
counters exactly once regardless of mode. -/
theorem statistics_summary (calls : List FrameCall)
    (hvalid : ∀ c ∈ calls, 0 < c.width ∧ 0 < c.height) :
    (getStatistics (runCalls (initializeProcessor mkProcessor).2 calls)).frames =
      calls.length ∧
    (getStatistics (runCalls (initializeProcessor mkProcessor).2 calls)).avgTime =
      (if calls.length = 0 then 0
       else ((calls.map FrameCall.elapsed).sum : ℚ) / (calls.length : ℚ)) ∧
    (getStatistics (runCalls (initializeProcessor mkProcessor).2 calls)).lastTime =
      ((calls.map FrameCall.elapsed).getLast?).getD 0 := by
  have h0 := runCalls_stats calls (initializeProcessor mkProcessor).2 (by decide) hvalid
  have hs : (initializeProcessor mkProcessor).2.mTotalFramesProcessed = 0 ∧
      (initializeProcessor mkProcessor).2.mTotalProcessingTimeMs = 0 ∧
      (initializeProcessor mkProcessor).2.mLastProcessingTimeMs = 0 := by decide
  refine ⟨?_, ?_, ?_⟩
  · simp [getStatistics, h0.2.1, hs.1]
  · by_cases hN : calls.length = 0
    · simp [getStatistics, h0.2.1, hs.1, hN]
    · have hpos : 0 < calls.length := Nat.pos_of_ne_zero hN
      simp [getStatistics, h0.2.1, h0.2.2.1, hs.1, hs.2.1, hN, hpos]
  · simp [getStatistics, h0.2.2.2, hs.2.2]

/-- Witness for C6: two calls (modes 0 and 7) with times 5 ms and 3 ms:
count 2, average 4 ms, last 3 ms. -/
theorem statistics_summary_witness :
    (∀ c ∈ [(⟨[1, 2, 3, 4], 1, 1, 0, 5⟩ : FrameCall), ⟨[1, 2, 3, 4], 1, 1, 7, 3⟩],
      0 < c.width ∧ 0 < c.height) ∧
    ((getStatistics (runCalls (initializeProcessor mkProcessor).2
        [⟨[1, 2, 3, 4], 1, 1, 0, 5⟩, ⟨[1, 2, 3, 4], 1, 1, 7, 3⟩])).frames =
      ([(⟨[1, 2, 3, 4], 1, 1, 0, 5⟩ : FrameCall), ⟨[1, 2, 3, 4], 1, 1, 7, 3⟩]).length ∧
    (getStatistics (runCalls (initializeProcessor mkProcessor).2
        [⟨[1, 2, 3, 4], 1, 1, 0, 5⟩, ⟨[1, 2, 3, 4], 1, 1, 7, 3⟩])).avgTime =
      (if ([(⟨[1, 2, 3, 4], 1, 1, 0, 5⟩ : FrameCall), ⟨[1, 2, 3, 4], 1, 1, 7, 3⟩]).length = 0
       then 0
       else ((([(⟨[1, 2, 3, 4], 1, 1, 0, 5⟩ : FrameCall),
            ⟨[1, 2, 3, 4], 1, 1, 7, 3⟩]).map FrameCall.elapsed).sum : ℚ) /
          ((([(⟨[1, 2, 3, 4], 1, 1, 0, 5⟩ : FrameCall),
            ⟨[1, 2, 3, 4], 1, 1, 7, 3⟩]).length : ℚ))) ∧
    (getStatistics (runCalls (initializeProcessor mkProcessor).2
        [⟨[1, 2, 3, 4], 1, 1, 0, 5⟩, ⟨[1, 2, 3, 4], 1, 1, 7, 3⟩])).lastTime =
      ((([(⟨[1, 2, 3, 4], 1, 1, 0, 5⟩ : FrameCall),
          ⟨[1, 2, 3, 4], 1, 1, 7, 3⟩]).map FrameCall.elapsed).getLast?).getD 0) :=
  ⟨by decide,
   statistics_summary [⟨[1, 2, 3, 4], 1, 1, 0, 5⟩, ⟨[1, 2, 3, 4], 1, 1, 7, 3⟩] (by decide)⟩

/-- Claim C7: every output pixel `(x, y)` of the planar-to-packed
conversion carries `R = (298C + 409E + 128) >> 8`,
`G = (298C − 100D − 208E + 128) >> 8`, `B = (298C + 516D + 128) >> 8`
with `C = Y − 16`, `D = U − 128`, `E = V − 128` (Y sampled at
`y*lumaStride + x`, U and V at `(y/2)*chromaStride + (x/2)*chromaPixelStride`),
each clamped to `[0, 255]`, and alpha `255`. -/
theorem yuv_pixel_formula (yP uP vP : Buf) (width height yRS uvRS uvPS x y : ℕ)
    (hx : x < width) (hy : y < height) :
    (yuv420ToRgba yP uP vP width height yRS uvRS uvPS).getD ((y * width + x) * 4) 0 =
      (clamp255 ((298 * ((readB yP (y * yRS + x) % 256 : ℕ) - 16 : ℤ) +
        409 * ((readB vP ((y / 2) * uvRS + (x / 2) * uvPS) % 256 : ℕ) - 128 : ℤ) +
        128).fdiv 256)).toNat ∧
    (yuv420ToRgba yP uP vP width height yRS uvRS uvPS).getD ((y * width + x) * 4 + 1) 0 =
      (clamp255 ((298 * ((readB yP (y * yRS + x) % 256 : ℕ) - 16 : ℤ) -
        100 * ((readB uP ((y / 2) * uvRS + (x / 2) * uvPS) % 256 : ℕ) - 128 : ℤ) -
        208 * ((readB vP ((y / 2) * uvRS + (x / 2) * uvPS) % 256 : ℕ) - 128 : ℤ) +
        128).fdiv 256)).toNat ∧
    (yuv420ToRgba yP uP vP width height yRS uvRS uvPS).getD ((y * width + x) * 4 + 2) 0 =
      (clamp255 ((298 * ((readB yP (y * yRS + x) % 256 : ℕ) - 16 : ℤ) +
        516 * ((readB uP ((y / 2) * uvRS + (x / 2) * uvPS) % 256 : ℕ) - 128 : ℤ) +
        128).fdiv 256)).toNat ∧
    (yuv420ToRgba yP uP vP width height yRS uvRS uvPS).getD ((y * width + x) * 4 + 3) 0 =
      255 := by
  have hA : y * width + x < width * height := pix_lt x y hx hy
  have hd := pix_decomp x y hx
  refine ⟨?_, ?_, ?_, ?_⟩ <;>
  · rw [yuv420ToRgba, getD_range_map _ (by omega)]
    have hidx : ((y * width + x) * 4) / 4 = y * width + x ∧
        ((y * width + x) * 4 + 1) / 4 = y * width + x ∧
        ((y * width + x) * 4 + 2) / 4 = y * width + x ∧
        ((y * width + x) * 4 + 3) / 4 = y * width + x ∧
        ((y * width + x) * 4) % 4 = 0 ∧ ((y * width + x) * 4 + 1) % 4 = 1 ∧
        ((y * width + x) * 4 + 2) % 4 = 2 ∧ ((y * width + x) * 4 + 3) % 4 = 3 := by
      omega
    simp only [hidx.1, hidx.2.1, hidx.2.2.1, hidx.2.2.2.1, hidx.2.2.2.2.1,
      hidx.2.2.2.2.2.1, hidx.2.2.2.2.2.2.1, hidx.2.2.2.2.2.2.2, hd.1, hd.2]
    norm_num

/-- Witness for C7: a 2×2 frame with `Y = 235`, `U = V = 128`
(BT.601 white) converts to `(255, 255, 255, 255)`. -/
theorem yuv_pixel_formula_witness :
    (0 < 2 ∧ 0 < 2) ∧
    (yuv420ToRgba [235, 235, 235, 235] [128] [128] 2 2 2 1 1).getD ((0 * 2 + 0) * 4) 0 =
      255 ∧
    (yuv420ToRgba [235, 235, 235, 235] [128] [128] 2 2 2 1 1).getD ((0 * 2 + 0) * 4 + 1) 0 =
      255 ∧
    (yuv420ToRgba [235, 235, 235, 235] [128] [128] 2 2 2 1 1).getD ((0 * 2 + 0) * 4 + 2) 0 =
      255 ∧
    (yuv420ToRgba [235, 235, 235, 235] [128] [128] 2 2 2 1 1).getD ((0 * 2 + 0) * 4 + 3) 0 =
      255 :=
  ⟨⟨by decide, by decide⟩,
   ((yuv_pixel_formula [235, 235, 235, 235] [128] [128] 2 2 2 1 1 0 0 (by decide)
      (by decide)).1).trans (by decide),
   ((yuv_pixel_formula [235, 235, 235, 235] [128] [128] 2 2 2 1 1 0 0 (by decide)
      (by decide)).2.1).trans (by decide),
   ((yuv_pixel_formula [235, 235, 235, 235] [128] [128] 2 2 2 1 1 0 0 (by decide)
      (by decide)).2.2.1).trans (by decide),
   (yuv_pixel_formula [235, 235, 235, 235] [128] [128] 2 2 2 1 1 0 0 (by decide)
      (by decide)).2.2.2⟩

/-- Claim C8: calling `initialize` twice in a row returns success both
times; the second call is a no-op that leaves the engine initialized
and does not reset the statistics counters. -/
theorem initialize_idempotent (s : ProcessorState) :
    (initializeProcessor s).1 = true ∧
    (initializeProcessor (initializeProcessor s).2).1 = true ∧
    (initializeProcessor s).2.mInitialized = true ∧
    (initializeProcessor (initializeProcessor s).2).2 = (initializeProcessor s).2 ∧
    (initializeProcessor (initializeProcessor s).2).2.mTotalFramesProcessed =
      (initializeProcessor s).2.mTotalFramesProcessed ∧
    (initializeProcessor (initializeProcessor s).2).2.mTotalProcessingTimeMs =
      (initializeProcessor s).2.mTotalProcessingTimeMs ∧
    (initializeProcessor (initializeProcessor s).2).2.mLastProcessingTimeMs =
      (initializeProcessor s).2.mLastProcessingTimeMs := by
  by_cases h : s.mInitialized = true <;>
    simp [initializeProcessor, h]

/-- Claim C9: the fallback EdgeDetect output does not depend on the
stored Canny thresholds — two engines differing only by
`setCannyThresholds` produce identical output bytes for the same frame
— and `setCannyThresholds` changes only the two threshold fields. -/
theorem thresholds_no_effect_on_fallback (s : ProcessorState) (lo hi lo' hi' : ℚ)
    (input : Buf) (width height : ℤ) (t : ℕ) (outBuf : Buf) :
    (processFrame (setCannyThresholds s lo hi) (some input) width height 1 t
        (some outBuf)).output =
      (processFrame (setCannyThresholds s lo' hi') (some input) width height 1 t
        (some outBuf)).output ∧
    (setCannyThresholds s lo hi).mInitialized = s.mInitialized ∧
    (setCannyThresholds s lo hi).mOpenCVAvailable = s.mOpenCVAvailable ∧
    (setCannyThresholds s lo hi).mCannyApertureSize = s.mCannyApertureSize ∧
    (setCannyThresholds s lo hi).mTotalFramesProcessed = s.mTotalFramesProcessed ∧
    (setCannyThresholds s lo hi).mTotalProcessingTimeMs = s.mTotalProcessingTimeMs ∧
    (setCannyThresholds s lo hi).mLastProcessingTimeMs = s.mLastProcessingTimeMs ∧
    (setCannyThresholds s lo hi).mCannyLowThreshold = lo ∧
    (setCannyThresholds s lo hi).mCannyHighThreshold = hi := by
  refine ⟨?_, rfl, rfl, rfl, rfl, rfl, rfl, rfl, rfl⟩
  by_cases hs : s.mInitialized = true <;>
    by_cases hwh : width ≤ 0 ∨ height ≤ 0 <;>
      simp [processFrame, setCannyThresholds, hs, hwh]

end Flam
